import Mathlib

/-!
Formal model of the Vestbee LP-list scraper's crawl, extraction and
normalization pipeline (`src/main.rs`, `src/scraper.rs`, `src/csv_writer.rs`,
`src/models.rs`).  Pure Rust/JS fragments are translated into executable Lean
definitions; side effects (sleeps, logging, file IO) are reflected as ghost
data (delay lists, visited-page lists, row lists) so that the orchestration
logic can be stated and proved exactly.
-/

/-- The record type of `src/models.rs` (`struct Fund`): seven string fields. -/
structure Fund where
  fund_name : String
  fund_url : String
  aum : String
  linkedin_url : String
  investment_geographies : String
  fund_description : String
  fund_portfolio : String
  deriving DecidableEq

/-- `Fund::new()`: every field starts as the empty string. -/
def Fund.new : Fund := ⟨"", "", "", "", "", "", ""⟩

namespace AumNormalizer

/-- JavaScript `\s` / `trim` whitespace characters. -/
def jsWhitespace (c : Char) : Bool :=
  c = ' ' || c = '\t' || c = '\n' || c = '\r' || c = '\x0b' || c = '\x0c' ||
  c = ' ' || c = ' ' || (0x2000 ≤ c.toNat && c.toNat ≤ 0x200a) ||
  c = ' ' || c = ' ' || c = ' ' || c = ' ' ||
  c = '　' || c = '﻿'

/-- Character class `[\d,.\+]` of the AUM regexes (scraper.rs line 339). -/
def isNumClass (c : Char) : Bool :=
  c.isDigit || c = ',' || c = '.' || c = '+'

/-- Character class `[€$£¥]` of the AUM regexes. -/
def isCurrencySymbol (c : Char) : Bool :=
  c = '€' || c = '$' || c = '£' || c = '¥'

/-- Character class `[TBMK]` under the `/i` flag. -/
def isTBMK (c : Char) : Bool :=
  c.toLower = 't' || c.toLower = 'b' || c.toLower = 'm' || c.toLower = 'k'

/-- Case-insensitive literal match: consume `lit` from the front of `cs`,
returning the rest on success. -/
def matchCI : List Char → List Char → Option (List Char)
  | [], cs => some cs
  | _ :: _, [] => none
  | l :: ls, c :: cs => if c.toLower = l.toLower then matchCI ls cs else none

/-- Optional case-insensitive alternation (for `(?:rillion|illion)?` and
`(?:EUR|USD|GBP)?`): returns the consumed characters (in original case)
together with the rest; consumes nothing when no alternative matches. -/
def matchOptLit : List (List Char) → List Char → (List Char × List Char)
  | [], cs => ([], cs)
  | l :: ls, cs =>
    match matchCI l cs with
    | some rest => (cs.take l.length, rest)
    | none => matchOptLit ls cs

/-- The capture group
`([€$£¥]?\s*[\d,.\+]+(?:[.,]\d+)?\+?\s*[TBMK](?:rillion|illion)?\s*(?:EUR|USD|GBP)?)`
matched at the current position.  Because the classes `[.,]`, `\d` and `\+`
are all contained in `[\d,.\+]`, greedy backtracking forces the three numeric
pieces to jointly consume the maximal run of `[\d,.\+]` characters, after
which the mandatory `[TBMK]` letter must follow (possibly after whitespace);
so the deterministic scan below is equivalent to the backtracking engine. -/
def matchCapture (cs : List Char) : Option (List Char) :=
  let curSplit : List Char × List Char :=
    match cs with
    | c :: rest => if isCurrencySymbol c then ([c], rest) else ([], c :: rest)
    | [] => ([], [])
  let cur := curSplit.1
  let sp1Split := curSplit.2.span jsWhitespace
  let numSplit := sp1Split.2.span isNumClass
  if numSplit.1.isEmpty then none
  else
    let sp2Split := numSplit.2.span jsWhitespace
    match sp2Split.2 with
    | [] => none
    | s :: cs5 =>
      if isTBMK s then
        let illSplit := matchOptLit ["rillion".toList, "illion".toList] cs5
        let sp3Split := illSplit.2.span jsWhitespace
        let codeSplit := matchOptLit ["EUR".toList, "USD".toList, "GBP".toList] sp3Split.2
        some (cur ++ sp1Split.1 ++ numSplit.1 ++ sp2Split.1 ++ [s] ++
              illSplit.1 ++ sp3Split.1 ++ codeSplit.1)
      else none

/-- `[:\s]*`: greedily drop colons and whitespace. -/
def dropColonWs (cs : List Char) : List Char :=
  (cs.span (fun c => c = ':' || jsWhitespace c)).2

/-- Pattern 1 (`/AUM[:\s]*(...)/i`) tried at one start position. -/
def aumPat1At (cs : List Char) : Option (List Char) :=
  match matchCI "aum".toList cs with
  | some rest => matchCapture (dropColonWs rest)
  | none => none

/-- Pattern 2 (`/Assets\s*Under\s*Management[:\s]*(...)/i`) tried at one
start position. -/
def aumPat2At (cs : List Char) : Option (List Char) :=
  match matchCI "assets".toList cs with
  | some r1 =>
    match matchCI "under".toList (r1.dropWhile jsWhitespace) with
    | some r2 =>
      match matchCI "management".toList (r2.dropWhile jsWhitespace) with
      | some r3 => matchCapture (dropColonWs r3)
      | none => none
    | none => none
  | none => none

/-- Leftmost-match search: JavaScript `text.match(re)` tries each start
position from the left and returns the first full match's capture. -/
def scanFirst (f : List Char → Option (List Char)) : List Char → Option (List Char)
  | [] => f []
  | c :: rest =>
    match f (c :: rest) with
    | some v => some v
    | none => scanFirst f rest

/-- JavaScript `String.prototype.trim`. -/
def jsTrim (cs : List Char) : List Char :=
  ((cs.dropWhile jsWhitespace).reverse.dropWhile jsWhitespace).reverse

/-- One step of `replace(/EUR|USD|GBP/gi, '')`: does a 3-letter currency code
start here? -/
def isCode3 (a b c : Char) : Bool :=
  (a.toLower = 'e' && b.toLower = 'u' && c.toLower = 'r') ||
  (a.toLower = 'u' && b.toLower = 's' && c.toLower = 'd') ||
  (a.toLower = 'g' && b.toLower = 'b' && c.toLower = 'p')

/-- `replace(/EUR|USD|GBP/gi, '')`: left-to-right global removal. -/
def removeCurrencyCodes : List Char → List Char
  | a :: b :: c :: rest =>
    if isCode3 a b c then removeCurrencyCodes rest
    else a :: removeCurrencyCodes (b :: c :: rest)
  | cs => cs

/-- Left-to-right global removal of `letter(?:tail)?` (case-insensitive),
e.g. `replace(/b(?:illion)?/gi, '')`.  The fuel argument starts at the
length of the list and never runs out (each step consumes at least one
character and one unit of fuel). -/
def removeSuffixGo (letter : Char) (tail : List Char) : Nat → List Char → List Char
  | 0, cs => cs
  | _ + 1, [] => []
  | fuel + 1, c :: rest =>
    if c.toLower = letter then
      match matchCI tail rest with
      | some rest2 => removeSuffixGo letter tail fuel rest2
      | none => removeSuffixGo letter tail fuel rest
    else c :: removeSuffixGo letter tail fuel rest

/-- Global removal of `letter(?:tail)?`, case-insensitive. -/
def removeSuffixPat (letter : Char) (tail : List Char) (cs : List Char) : List Char :=
  removeSuffixGo letter tail cs.length cs

/-- The magnitude-suffix step (scraper.rs lines 356–370): test the lowercased
string for `t`/`b`/`m`/`k` in that order, record the multiplier and strip the
suffix pattern. -/
def detectMultiplier (cs : List Char) : Nat × List Char :=
  let lower := cs.map Char.toLower
  if lower.contains 't' then (1000000000000, removeSuffixPat 't' "rillion".toList cs)
  else if lower.contains 'b' then (1000000000, removeSuffixPat 'b' "illion".toList cs)
  else if lower.contains 'm' then (1000000, removeSuffixPat 'm' "illion".toList cs)
  else if lower.contains 'k' then (1000, cs.filter (fun c => !(c.toLower = 'k')))
  else (1, cs)

/-- JavaScript `String.prototype.lastIndexOf` for a single character
(`-1` when absent). -/
def lastIndexOfChar (c : Char) : List Char → Int
  | [] => -1
  | x :: xs =>
    let r := lastIndexOfChar c xs
    if r ≥ 0 then r + 1
    else if x = c then 0 else -1

/-- JavaScript `replace(',', '.')` with a string pattern: only the first
occurrence is replaced. -/
def replaceFirstChar (old new : Char) : List Char → List Char
  | [] => []
  | c :: cs => if c = old then new :: cs else c :: replaceFirstChar old new cs

/-- Worker for `split(',')`: returns the first part and the remaining parts. -/
def splitGo : List Char → (List Char × List (List Char))
  | [] => ([], [])
  | c :: cs =>
    let r := splitGo cs
    if c = ',' then ([], r.1 :: r.2) else (c :: r.1, r.2)

/-- JavaScript `aumValue.split(',')`. -/
def splitOnComma (cs : List Char) : List (List Char) :=
  (splitGo cs).1 :: (splitGo cs).2

/-- The decimal/thousands separator disambiguation (scraper.rs lines 372–395),
exactly as the code performs it. -/
def cleanSeparators (cs : List Char) : List Char :=
  if cs.contains ',' && cs.contains '.' then
    if lastIndexOfChar ',' cs > lastIndexOfChar '.' cs then
      replaceFirstChar ',' '.' (cs.filter (fun c => !(c = '.')))
    else cs.filter (fun c => !(c = ','))
  else if cs.contains ',' then
    if (splitOnComma cs).length = 2 && ((splitOnComma cs).getD 1 []).length ≤ 3 then
      replaceFirstChar ',' '.' cs
    else cs.filter (fun c => !(c = ','))
  else cs

/-- Value of a digit string. -/
def digitsVal (ds : List Char) : Nat :=
  ds.foldl (fun n c => n * 10 + (c.toNat - '0'.toNat)) 0

/-- JavaScript `parseFloat`, with the numeric value represented exactly as an
integer fraction (numerator, positive power-of-ten denominator): optional
sign, integer digits, optional fraction, optional exponent; parsing stops at
the first invalid character; `none` models `NaN` (no digits found). -/
def parseFloatExact (cs0 : List Char) : Option (Int × Nat) :=
  let cs1 := cs0.dropWhile jsWhitespace
  let sign : Int := match cs1 with | '-' :: _ => -1 | _ => 1
  let cs2 := match cs1 with | '+' :: r => r | '-' :: r => r | _ => cs1
  let ip := cs2.span Char.isDigit
  let fp : List Char × List Char :=
    match ip.2 with
    | '.' :: r => r.span Char.isDigit
    | _ => ([], ip.2)
  if ip.1.isEmpty && fp.1.isEmpty then none
  else
    let expo : Int :=
      match fp.2 with
      | e :: r =>
        if e.toLower = 'e' then
          let es : Int := match r with | '-' :: _ => -1 | _ => 1
          let r2 := match r with | '+' :: rr => rr | '-' :: rr => rr | _ => r
          let eds := (r2.span Char.isDigit).1
          if eds.isEmpty then 0 else es * (digitsVal eds : Int)
        else 0
      | [] => 0
    let e10 : Int := expo - fp.1.length
    if e10 ≥ 0 then some (sign * (digitsVal (ip.1 ++ fp.1) : Int) * 10 ^ e10.toNat, 1)
    else some (sign * (digitsVal (ip.1 ++ fp.1) : Int), 10 ^ (-e10).toNat)

/-- JavaScript `Math.round` of the fraction `num / den` (`den > 0`): round
half toward positive infinity, i.e. the floor of `num / den + 1 / 2`. -/
def jsRound (num : Int) (den : Nat) : Int :=
  (2 * num + (den : Int)).fdiv (2 * (den : Int))

/-- The cleanup pipeline applied to a successful regex capture (scraper.rs
lines 347–403): trim, drop `+`, drop currency symbols and codes, detect the
magnitude suffix, disambiguate separators, parse; `none` when `parseFloat`
yields `NaN` (the JS then falls through to the next pattern). -/
def processMatch : Option (List Char) → Option String
  | none => none
  | some cap =>
    let v0 := jsTrim cap
    let v1 := v0.filter (fun c => !(c = '+'))
    let v2 := jsTrim (removeCurrencyCodes (v1.filter (fun c => !(isCurrencySymbol c))))
    let md := detectMultiplier v2
    let v4 := cleanSeparators md.2
    match parseFloatExact v4 with
    | some nd => some (toString (jsRound (nd.1 * (md.1 : Int)) nd.2))
    | none => none

/-- The AUM normalizer of `scrape_fund_details` (scraper.rs lines 332–414)
applied to one text node: try pattern 1 then pattern 2, return the processed
first match, or the empty string when nothing parses. -/
def normalize (text : String) : String :=
  match processMatch (scanFirst aumPat1At text.toList) with
  | some r => r
  | none =>
    match processMatch (scanFirst aumPat2At text.toList) with
    | some r => r
    | none => ""

/-- Spec-side phrasing: the text after the last comma of the string (used
to compare the code's `split(',')`-based test against the specification's
wording; only meaningful when a comma is present). -/
def afterLastComma : List Char → List Char
  | [] => []
  | c :: cs =>
    if cs.contains ',' then afterLastComma cs
    else if c = ',' then cs else afterLastComma cs

end AumNormalizer

/-- The rendering capability consumed by `get_fund_urls` (scraper.rs lines
46–213), abstracted over the page state: `pageLinks k` is the value of the
detail-link query while the pager is on listing page `k`, `nextPage k` is the
value of the find-and-click-next query there, and `altLinks` is the value of
the looser fallback query (lines 184–203). -/
structure Renderer where
  pageLinks : Nat → List String
  nextPage : Nat → Bool
  altLinks : List String

/-- The membership-tested insertion of scraper.rs lines 96–100: push a URL
only if it is not already collected. -/
def addUnique (acc : List String) (url : String) : List String :=
  if acc.contains url then acc else acc ++ [url]

/-- Insert every URL of one page, in order, keeping first occurrences. -/
def addUniqueAll (acc : List String) (urls : List String) : List String :=
  urls.foldl addUnique acc

/-- The pagination loop of `get_fund_urls` (scraper.rs lines 56–177): collect
the current page's links, query/click next, stop when there is no next page
or when the incremented page counter would exceed 100.  Returns the
collected URLs together with the list of page numbers harvested (ghost data
mirroring the per-page log lines).  Called with `pageNumber = 1` and
`fuel = 100`; the fuel never runs out because the loop recurses only while
`pageNumber + 1 ≤ 100`. -/
def crawlLoop (r : Renderer) : Nat → List String → Nat → (List String × List Nat)
  | _, acc, 0 => (acc, [])
  | pageNumber, acc, fuel + 1 =>
    let acc2 := addUniqueAll acc (r.pageLinks pageNumber)
    if r.nextPage pageNumber then
      if pageNumber + 1 > 100 then (acc2, [pageNumber])
      else
        let rest := crawlLoop r (pageNumber + 1) acc2 fuel
        (rest.1, pageNumber :: rest.2)
    else (acc2, [pageNumber])

/-- The pages the pagination loop harvests, as a function of the renderer
alone (the collected URLs never influence the loop's control flow). -/
def visitedPages (r : Renderer) : Nat → Nat → List Nat
  | _, 0 => []
  | pageNumber, fuel + 1 =>
    if r.nextPage pageNumber then
      if pageNumber + 1 > 100 then [pageNumber]
      else pageNumber :: visitedPages r (pageNumber + 1) fuel
    else [pageNumber]

/-- `get_fund_urls` (scraper.rs lines 46–213): run the pagination loop; if it
collected nothing, fall back to the looser alternative query and return its
result verbatim when non-empty. -/
def get_fund_urls (r : Renderer) : List String :=
  let fund_urls := (crawlLoop r 1 [] 100).1
  if fund_urls.isEmpty then
    if !r.altLinks.isEmpty then r.altLinks
    else fund_urls
  else fund_urls

deriving instance DecidableEq for Except

/-- Observable behaviour of one `scrape_with_retry` call: the returned value,
how many times the operation was invoked, and the seconds slept between
attempts (in order). -/
structure RetryTrace where
  result : Except String Fund
  attempts : Nat
  delays : List Nat
  deriving DecidableEq

/-- The retry loop of `scrape_with_retry` (scraper.rs lines 602–621), with
the operation modelled as a function from the attempt index to its outcome.
The fuel is `max_retries - retries`; on failure with fuel left the loop
sleeps `delay`, doubles it and retries, and on failure with no fuel left the
error is returned. -/
def retryAux (op : Nat → Except String Fund) (idx delay : Nat) : Nat → RetryTrace
  | 0 => { result := op idx, attempts := 1, delays := [] }
  | fuel + 1 =>
    match op idx with
    | .ok fund => { result := .ok fund, attempts := 1, delays := [] }
    | .error _ =>
      let t := retryAux op (idx + 1) (delay * 2) fuel
      { result := t.result, attempts := t.attempts + 1, delays := delay :: t.delays }

/-- `scrape_with_retry(scraper, url, max_retries)`: first attempt at index 0,
initial delay 2 seconds. -/
def scrape_with_retry (op : Nat → Except String Fund) (max_retries : Nat) : RetryTrace :=
  retryAux op 0 2 max_retries

/-- The geometric backoff schedule `[delay, 2*delay, 4*delay, ...]` produced
by an uninterrupted run of failures. -/
def geomDelays (delay : Nat) : Nat → List Nat
  | 0 => []
  | fuel + 1 => delay :: geomDelays (delay * 2) fuel

/-- The header record written by `CsvExporter::write_header`
(csv_writer.rs lines 17–29).  The third entry is written in the source
exactly as the bytes `41 55 4D 20 28 C3 A2 E2 80 9A C2 AC 29`, i.e.
`AUM (â‚¬)`: the euro sign's UTF-8 bytes mis-decoded as
Windows-1252 text. -/
def csvHeader : List String :=
  ["fund_name", "fund_url", "AUM (â‚¬)", "linkedin_url",
   "investment_geographies", "fund_description", "fund_portfolio"]

/-- The record written by `CsvExporter::write_fund` (csv_writer.rs lines
31–43): the seven fields in schema order. -/
def fundRecord (f : Fund) : List String :=
  [f.fund_name, f.fund_url, f.aum, f.linkedin_url, f.investment_geographies,
   f.fund_description, f.fund_portfolio]

/-- Mutable state of the per-URL loop in `main` (main.rs lines 50–74): the
rows written to the CSV file so far, the accumulated funds for the Excel
export, and the two counters. -/
structure RunState where
  csvRows : List (List String)
  all_funds : List Fund
  successful_count : Nat
  failed_count : Nat
  deriving DecidableEq

/-- One iteration of the loop in `main` (main.rs lines 53–69): a successful
scrape with a non-empty name is written to the CSV file, accumulated for
Excel and counted as a success; an empty name or a propagated error only
bumps the failure counter. -/
def mainStep (outcome : Nat → Except String Fund) (st : RunState) (idx : Nat) : RunState :=
  match outcome idx with
  | .ok fund =>
    if !fund.fund_name.isEmpty then
      { st with csvRows := st.csvRows ++ [fundRecord fund],
                all_funds := st.all_funds ++ [fund],
                successful_count := st.successful_count + 1 }
    else { st with failed_count := st.failed_count + 1 }
  | .error _ => { st with failed_count := st.failed_count + 1 }

/-- Observable result of one run of `main` (main.rs lines 16–91): whether the
run stopped at the empty-discovery check, the CSV file contents (`none` when
the file was never created), the funds handed to the Excel writer, and the
final counters. -/
structure RunResult where
  halted_early : Bool
  csvFile : Option (List (List String))
  excelFunds : Option (List Fund)
  successful_count : Nat
  failed_count : Nat
  deriving DecidableEq

/-- `main` after URL discovery (main.rs lines 35–74): an empty URL list
returns early, before the CSV file is created or any scrape is attempted;
otherwise the header is written once and every URL is processed in order,
with `outcome idx` the result `scrape_with_retry` produced for the idx-th
URL. -/
def runMain (urls : List String) (outcome : Nat → Except String Fund) : RunResult :=
  if urls.isEmpty then
    { halted_early := true, csvFile := none, excelFunds := none,
      successful_count := 0, failed_count := 0 }
  else
    let st := (List.range urls.length).foldl (mainStep outcome) ⟨[], [], 0, 0⟩
    { halted_early := false,
      csvFile := some (csvHeader :: st.csvRows),
      excelFunds := some st.all_funds,
      successful_count := st.successful_count,
      failed_count := st.failed_count }

/-! ## Retry orchestrator: helper lemmas -/

theorem retryAux_attempts_le (op : Nat → Except String Fund) :
    ∀ (fuel idx delay : Nat), (retryAux op idx delay fuel).attempts ≤ fuel + 1 := by
  intro fuel
  induction fuel with
  | zero => intro idx delay; simp [retryAux]
  | succ f ih =>
    intro idx delay
    simp only [retryAux]
    cases op idx with
    | ok fund => simp
    | error e =>
      simp only []
      have := ih (idx + 1) (delay * 2)
      omega

theorem retryAux_always_fail (op : Nat → Except String Fund) (errs : Nat → String)
    (h : ∀ i, op i = .error (errs i)) :
    ∀ (fuel idx delay : Nat),
      retryAux op idx delay fuel =
        ⟨.error (errs (idx + fuel)), fuel + 1, geomDelays delay fuel⟩ := by
  intro fuel
  induction fuel with
  | zero => intro idx delay; simp [retryAux, geomDelays, h idx]
  | succ f ih =>
    intro idx delay
    simp only [retryAux, h idx, geomDelays, ih (idx + 1) (delay * 2)]
    have : idx + 1 + f = idx + (f + 1) := by omega
    rw [this]

/-- Claim C2 (counterexample): with retry budget 3 an always-failing
operation is attempted 4 times, not 3 as the claim states. -/
theorem c2_counterexample :
    (scrape_with_retry (fun _ => .error "boom") 3).attempts = 4 ∧
    ¬ (scrape_with_retry (fun _ => .error "boom") 3).attempts = 3 := by
  decide

/-- Claim C2 (amended): for every retried operation that fails on every
attempt, `scrape_with_retry` with retry budget `n` performs exactly `n + 1`
attempts (so 4 attempts for budget 3) and then propagates the last attempt's
failure to the caller; in general a failure is propagated rather than
retried exactly when the number of retries already performed equals the
budget, i.e. at attempt `n + 1`. -/
theorem c2_amended (op : Nat → Except String Fund) (errs : Nat → String)
    (h : ∀ i, op i = .error (errs i)) :
    (∀ n, scrape_with_retry op n =
      ⟨.error (errs n), n + 1, geomDelays 2 n⟩) ∧
    scrape_with_retry op 3 = ⟨.error (errs 3), 4, [2, 4, 8]⟩ := by
  constructor
  · intro n
    have := retryAux_always_fail op errs h n 0 2
    simpa [scrape_with_retry] using this
  · have := retryAux_always_fail op errs h 3 0 2
    simpa [scrape_with_retry, geomDelays] using this

theorem c2_amended_witness :
    scrape_with_retry (fun _ => .error "boom") 3 = ⟨.error "boom", 4, [2, 4, 8]⟩ :=
  (c2_amended (fun _ => .error "boom") (fun _ => "boom") (fun _ => rfl)).2

/-- Claim C9: an operation failing on its first two attempts and succeeding
on the third is retried exactly twice by `scrape_with_retry` with budget 3,
with delays of 2 then 4 seconds, and the third attempt's record is
returned. -/
theorem c9_retry_backoff (op : Nat → Except String Fund) (f : Fund) (e0 e1 : String)
    (h0 : op 0 = .error e0) (h1 : op 1 = .error e1) (h2 : op 2 = .ok f) :
    scrape_with_retry op 3 = ⟨.ok f, 3, [2, 4]⟩ := by
  simp [scrape_with_retry, retryAux, h0, h1, h2]

theorem c9_retry_backoff_witness :
    scrape_with_retry (fun i => if i < 2 then .error "e" else .ok Fund.new) 3
      = ⟨.ok Fund.new, 3, [2, 4]⟩ :=
  c9_retry_backoff (fun i => if i < 2 then .error "e" else .ok Fund.new)
    Fund.new "e" "e" rfl rfl rfl

/-- Claim C10: `scrape_with_retry` invokes the operation at most `n + 1`
times for budget `n`; an always-failing operation is invoked exactly
`n + 1` times, and with budget 0 exactly once, with its failure propagated
immediately and no backoff sleep performed. -/
theorem c10_attempt_bound (op : Nat → Except String Fund) (n : Nat) :
    (scrape_with_retry op n).attempts ≤ n + 1 ∧
    (∀ errs : Nat → String, (∀ i, op i = .error (errs i)) →
      (scrape_with_retry op n).attempts = n + 1 ∧
      scrape_with_retry op 0 = ⟨.error (errs 0), 1, []⟩) := by
  constructor
  · exact retryAux_attempts_le op n 0 2
  · intro errs h
    constructor
    · simp [scrape_with_retry, retryAux_always_fail op errs h n 0 2]
    · simpa [scrape_with_retry] using retryAux_always_fail op errs h 0 0 2

theorem c10_attempt_bound_witness :
    (scrape_with_retry (fun _ => .error "boom") 2).attempts ≤ 3 ∧
    (scrape_with_retry (fun _ => .error "boom") 2).attempts = 3 := by
  have h := c10_attempt_bound (fun _ => .error "boom") 2
  exact ⟨h.1, (h.2 (fun _ => "boom") (fun _ => rfl)).1⟩

/-! ## Pagination crawler: helper lemmas -/

theorem addUniqueAll_cons (acc : List String) (u : String) (us : List String) :
    addUniqueAll acc (u :: us) = addUniqueAll (addUnique acc u) us := rfl

theorem addUnique_of_mem (acc : List String) (u : String) (h : u ∈ acc) :
    addUnique acc u = acc := by
  simp [addUnique, h]

theorem addUnique_of_not_mem (acc : List String) (u : String) (h : u ∉ acc) :
    addUnique acc u = acc ++ [u] := by
  simp [addUnique, h]

theorem mem_addUnique (acc : List String) (u x : String) :
    x ∈ addUnique acc u ↔ x ∈ acc ∨ x = u := by
  by_cases h : u ∈ acc
  · rw [addUnique_of_mem acc u h]
    constructor
    · exact Or.inl
    · rintro (hx | rfl)
      · exact hx
      · exact h
  · rw [addUnique_of_not_mem acc u h]
    simp

theorem nodup_addUnique (acc : List String) (u : String) (h : acc.Nodup) :
    (addUnique acc u).Nodup := by
  by_cases hm : u ∈ acc
  · rw [addUnique_of_mem acc u hm]; exact h
  · rw [addUnique_of_not_mem acc u hm]
    simp [List.nodup_append, h, hm]

theorem mem_addUniqueAll (acc urls : List String) (x : String) :
    x ∈ addUniqueAll acc urls ↔ x ∈ acc ∨ x ∈ urls := by
  induction urls generalizing acc with
  | nil => simp [addUniqueAll]
  | cons u us ih =>
    rw [addUniqueAll_cons, ih (addUnique acc u)]
    rw [mem_addUnique]
    simp only [List.mem_cons]
    tauto

theorem nodup_addUniqueAll (acc urls : List String) (h : acc.Nodup) :
    (addUniqueAll acc urls).Nodup := by
  induction urls generalizing acc with
  | nil => simpa [addUniqueAll] using h
  | cons u us ih =>
    rw [addUniqueAll_cons]
    exact ih (addUnique acc u) (nodup_addUnique acc u h)

theorem addUniqueAll_append (acc xs ys : List String) :
    addUniqueAll acc (xs ++ ys) = addUniqueAll (addUniqueAll acc xs) ys := by
  simp [addUniqueAll, List.foldl_append]

theorem addUniqueAll_extends (acc l : List String) :
    ∃ t, addUniqueAll acc l = acc ++ t ∧ t.Sublist l := by
  induction l generalizing acc with
  | nil => exact ⟨[], by simp [addUniqueAll], List.Sublist.refl []⟩
  | cons u us ih =>
    by_cases hm : u ∈ acc
    · obtain ⟨t, ht, hs⟩ := ih acc
      refine ⟨t, ?_, hs.cons u⟩
      rw [addUniqueAll_cons, addUnique_of_mem acc u hm]
      exact ht
    · obtain ⟨t, ht, hs⟩ := ih (acc ++ [u])
      refine ⟨u :: t, ?_, hs.cons₂ u⟩
      rw [addUniqueAll_cons, addUnique_of_not_mem acc u hm, ht]
      simp

theorem crawlLoop_snd (r : Renderer) :
    ∀ (fuel p : Nat) (acc : List String),
      (crawlLoop r p acc fuel).2 = visitedPages r p fuel := by
  intro fuel
  induction fuel with
  | zero => intro p acc; simp [crawlLoop, visitedPages]
  | succ f ih =>
    intro p acc
    simp only [crawlLoop, visitedPages]
    by_cases hn : r.nextPage p
    · by_cases hcap : p + 1 > 100
      · simp [hn, hcap]
      · simp [hn, hcap, ih]
    · simp [hn]

theorem crawlLoop_fst (r : Renderer) :
    ∀ (fuel p : Nat) (acc : List String),
      (crawlLoop r p acc fuel).1 =
        addUniqueAll acc ((visitedPages r p fuel).map r.pageLinks).flatten := by
  intro fuel
  induction fuel with
  | zero => intro p acc; simp [crawlLoop, visitedPages, addUniqueAll]
  | succ f ih =>
    intro p acc
    simp only [crawlLoop, visitedPages]
    by_cases hn : r.nextPage p
    · by_cases hcap : p + 1 > 100
      · simp [hn, hcap, addUniqueAll]
      · simp only [hn, hcap, if_true, if_false, List.map_cons, List.flatten_cons]
        rw [addUniqueAll_append]
        exact ih (p + 1) (addUniqueAll acc (r.pageLinks p))
    · simp [hn, addUniqueAll]

/-- Claim C3 (counterexample): when the primary crawl collects nothing and
the looser fallback query supplies the result, that result is returned
verbatim and may contain the same URL twice, so discovery does not always
return a duplicate-free list. -/
theorem c3_counterexample :
    get_fund_urls ⟨fun _ => [], fun _ => false, ["a", "a"]⟩ = ["a", "a"] ∧
    ¬ (get_fund_urls ⟨fun _ => [], fun _ => false, ["a", "a"]⟩).Nodup := by
  decide

/-- Claim C3 (amended): the URL list collected by the pagination loop itself
contains each distinct URL exactly once, in first-encounter order: it has no
duplicates, it equals the first-occurrence deduplication of the
concatenated per-page link lists, it contains exactly the URLs of those
lists, and it is a subsequence of their concatenation.  `get_fund_urls`
returns this list whenever it is non-empty; when it is empty the fallback
query's result is returned verbatim (without deduplication). -/
theorem c3_amended (r : Renderer) :
    (crawlLoop r 1 [] 100).1.Nodup ∧
    (crawlLoop r 1 [] 100).1 =
      addUniqueAll [] ((visitedPages r 1 100).map r.pageLinks).flatten ∧
    (∀ x, x ∈ (crawlLoop r 1 [] 100).1 ↔
      x ∈ ((visitedPages r 1 100).map r.pageLinks).flatten) ∧
    (crawlLoop r 1 [] 100).1.Sublist ((visitedPages r 1 100).map r.pageLinks).flatten ∧
    ((crawlLoop r 1 [] 100).1 ≠ [] → get_fund_urls r = (crawlLoop r 1 [] 100).1) ∧
    ((crawlLoop r 1 [] 100).1 = [] →
      get_fund_urls r = if r.altLinks.isEmpty then [] else r.altLinks) := by
  have hfst := crawlLoop_fst r 100 1 []
  refine ⟨?_, hfst, ?_, ?_, ?_, ?_⟩
  · rw [hfst]; exact nodup_addUniqueAll _ _ List.nodup_nil
  · intro x
    rw [hfst, mem_addUniqueAll]
    simp
  · rw [hfst]
    obtain ⟨t, ht, hs⟩ := addUniqueAll_extends []
      ((visitedPages r 1 100).map r.pageLinks).flatten
    rw [ht]
    simpa using hs
  · intro hne
    simp only [get_fund_urls]
    rw [if_neg (by simpa [List.isEmpty_iff] using hne)]
  · intro he
    simp only [get_fund_urls]
    rw [if_pos (by simpa [List.isEmpty_iff] using he)]
    by_cases ha : r.altLinks.isEmpty
    · rw [if_neg (by simpa using ha), if_pos ha]
      exact he
    · rw [if_pos (by simpa using ha), if_neg ha]

theorem c3_amended_witness :
    get_fund_urls ⟨fun _ => ["a", "b", "a"], fun _ => false, []⟩ = ["a", "b"] ∧
    (crawlLoop ⟨fun _ => ["a", "b", "a"], fun _ => false, []⟩ 1 [] 100).1.Nodup := by
  have h := c3_amended ⟨fun _ => ["a", "b", "a"], fun _ => false, []⟩
  refine ⟨(h.2.2.2.2.1 (by decide)).trans (by decide), h.1⟩

theorem visitedPages_always_next (r : Renderer) (h : ∀ k, r.nextPage k = true) :
    ∀ (fuel p : Nat), p + fuel = 101 → visitedPages r p fuel = List.range' p fuel := by
  intro fuel
  induction fuel with
  | zero => intro p _; simp [visitedPages]
  | succ f ih =>
    intro p hp
    simp only [visitedPages, h p, if_true]
    by_cases hcap : p + 1 > 100
    · have hf : f = 0 := by omega
      subst hf
      simp [hcap, List.range']
    · rw [if_neg hcap, ih (p + 1) (by omega)]
      simp [List.range']

/-- Claim C7: when the next-page query always reports a further page, the
pagination loop still terminates, harvesting exactly pages 1 through 100 (in
order) and no further, and the collected URLs are the first-occurrence
deduplication of the links of those 100 pages. -/
theorem c7_page_cap (r : Renderer) (h : ∀ k, r.nextPage k = true) :
    (crawlLoop r 1 [] 100).2 = List.range' 1 100 ∧
    (crawlLoop r 1 [] 100).1 =
      addUniqueAll [] ((List.range' 1 100).map r.pageLinks).flatten := by
  have hv : visitedPages r 1 100 = List.range' 1 100 :=
    visitedPages_always_next r h 100 1 (by omega)
  constructor
  · rw [crawlLoop_snd r 100 1 [], hv]
  · rw [crawlLoop_fst r 100 1 [], hv]

theorem c7_page_cap_witness :
    (crawlLoop ⟨fun _ => [], fun _ => true, []⟩ 1 [] 100).2 = List.range' 1 100 :=
  (c7_page_cap ⟨fun _ => [], fun _ => true, []⟩ (fun _ => rfl)).1

/-! ## Main orchestration: helper lemmas -/

theorem mainStep_counts (outcome : Nat → Except String Fund) (st : RunState) (i : Nat) :
    (mainStep outcome st i).successful_count + (mainStep outcome st i).failed_count =
      st.successful_count + st.failed_count + 1 := by
  simp only [mainStep]
  cases outcome i with
  | ok fund =>
    by_cases h : fund.fund_name.isEmpty <;> simp [h] <;> omega
  | error e => simp; omega

theorem foldl_mainStep_counts (outcome : Nat → Except String Fund) :
    ∀ (idxs : List Nat) (st : RunState),
      (idxs.foldl (mainStep outcome) st).successful_count +
          (idxs.foldl (mainStep outcome) st).failed_count =
        st.successful_count + st.failed_count + idxs.length := by
  intro idxs
  induction idxs with
  | nil => intro st; simp
  | cons i is ih =>
    intro st
    simp only [List.foldl_cons, List.length_cons]
    rw [ih (mainStep outcome st i), mainStep_counts]
    omega

/-- Claim C5: whenever discovery produced at least one URL, the run never
halts early and every URL is accounted for by exactly one of the two
counters (per-URL failures only increment the failure counter — the batch
continues); with zero URLs the run halts before the CSV file is created,
before the Excel data is produced and before any extraction outcome is
consulted (the result does not depend on the outcomes at all). -/
theorem c5_failure_isolation (urls : List String) (outcome : Nat → Except String Fund) :
    (urls ≠ [] →
      (runMain urls outcome).halted_early = false ∧
      (runMain urls outcome).successful_count + (runMain urls outcome).failed_count
        = urls.length ∧
      (runMain urls outcome).csvFile ≠ none ∧
      (runMain urls outcome).excelFunds ≠ none) ∧
    (urls = [] →
      (runMain urls outcome).halted_early = true ∧
      (runMain urls outcome).csvFile = none ∧
      (runMain urls outcome).excelFunds = none ∧
      ∀ outcome2, runMain urls outcome = runMain urls outcome2) := by
  constructor
  · intro hne
    have hemp : urls.isEmpty = false := by simpa [List.isEmpty_iff] using hne
    simp only [runMain, hemp, Bool.false_eq_true, if_false]
    refine ⟨by trivial, ?_, by simp, by simp⟩
    have h := foldl_mainStep_counts outcome (List.range urls.length) ⟨[], [], 0, 0⟩
    simpa using h
  · rintro rfl
    refine ⟨by simp [runMain], by simp [runMain], by simp [runMain], fun outcome2 => ?_⟩
    simp [runMain]

theorem c5_failure_isolation_witness :
    (runMain ["u"] (fun _ => Except.error "e")).halted_early = false ∧
    (runMain ["u"] (fun _ => Except.error "e")).successful_count +
      (runMain ["u"] (fun _ => Except.error "e")).failed_count = 1 := by
  have h := (c5_failure_isolation ["u"] (fun _ => Except.error "e")).1 (by decide)
  exact ⟨h.1, h.2.1⟩

/-- Claim C6: an extraction that completes without error but yields a record
with an empty name is returned by `scrape_with_retry` as a success after a
single attempt (no retry, no sleep), while the call site counts it as a
failure and leaves both the CSV rows and the Excel accumulation (and the
success counter) unchanged. -/
theorem c6_empty_name_soft_failure (op : Nat → Except String Fund) (fund : Fund)
    (hop : op 0 = .ok fund) (hname : fund.fund_name = "") :
    (∀ n, scrape_with_retry op n = ⟨.ok fund, 1, []⟩) ∧
    (∀ (outcome : Nat → Except String Fund) (st : RunState) (idx : Nat),
      outcome idx = .ok fund →
      mainStep outcome st idx = { st with failed_count := st.failed_count + 1 }) := by
  constructor
  · intro n
    cases n with
    | zero => simp [scrape_with_retry, retryAux, hop]
    | succ f => simp [scrape_with_retry, retryAux, hop]
  · intro outcome st idx h
    have hempty : fund.fund_name.isEmpty = true := by rw [hname]; decide
    simp [mainStep, h, hempty]

theorem c6_empty_name_soft_failure_witness :
    scrape_with_retry (fun _ => .ok Fund.new) 3 = ⟨.ok Fund.new, 1, []⟩ ∧
    mainStep (fun _ => .ok Fund.new) ⟨[], [], 0, 0⟩ 0 = ⟨[], [], 0, 1⟩ := by
  have h := c6_empty_name_soft_failure (fun _ => .ok Fund.new) Fund.new rfl rfl
  exact ⟨h.1 3, h.2 (fun _ => .ok Fund.new) ⟨[], [], 0, 0⟩ 0 rfl⟩

/-- Claim C8: the CSV file always begins with exactly one header record,
written before any data row and present even when zero records follow; but
its third column is written by the source as the mojibake string
`AUM (â‚¬)` (the euro sign's UTF-8 bytes mis-decoded as Windows-1252), not
the intended `AUM (€)` of the specification's schema. -/
theorem c8_header_encoding :
    runMain ["u"] (fun _ => Except.error "err") =
      ⟨false, some [csvHeader], some [], 0, 1⟩ ∧
    (runMain ["u"] (fun _ => Except.ok { Fund.new with fund_name := "Alpha" })).csvFile =
      some [csvHeader, fundRecord { Fund.new with fund_name := "Alpha" }] ∧
    csvHeader.length = 7 ∧
    csvHeader.getD 2 "" = "AUM (â‚¬)" ∧
    csvHeader.getD 2 "" ≠ "AUM (€)" := by
  decide

/-! ## AUM normalizer: claims -/

/-- Claim C1 (counterexample): the extraction regexes make the `[TBMK]`
magnitude suffix mandatory, so `AUM: €1.200,50` (which has no suffix) never
matches: the normalizer returns the empty string there, not `1200` as the
claim's first vector states. -/
theorem c1_counterexample :
    AumNormalizer.normalize "AUM: €1.200,50" = "" ∧
    AumNormalizer.normalize "AUM: €1.200,50" ≠ "1200" := by
  decide

/-- Claim C1 (amended): the normalizer meets the spec's suffixed example
vectors (`$3.8B` to `3800000000`, `500k` to `500000`, and the empty string
on a text with no AUM mention), but the suffix-less European-format vector
`AUM: €1.200,50` yields the empty string, because the capture regex requires
a `[TBMK]` magnitude suffix. -/
theorem c1_amended :
    AumNormalizer.normalize "AUM: €1.200,50" = "" ∧
    AumNormalizer.normalize "AUM: $3.8B" = "3800000000" ∧
    AumNormalizer.normalize "AUM: 500k" = "500000" ∧
    AumNormalizer.normalize "no mention" = "" := by
  decide

namespace AumNormalizer

theorem splitGo_count (cs : List Char) : (splitGo cs).2.length = cs.count ',' := by
  induction cs with
  | nil => simp [splitGo]
  | cons c cs ih =>
    by_cases h : c = ','
    · subst h
      simp [splitGo, List.count_cons, ih]
    · simp [splitGo, h, List.count_cons, ih]

theorem splitGo_count_zero (cs : List Char) (h : cs.count ',' = 0) :
    splitGo cs = (cs, []) := by
  induction cs with
  | nil => simp [splitGo]
  | cons c cs ih =>
    have hc : ¬ c = ',' := by
      intro hceq
      subst hceq
      simp [List.count_cons] at h
    have hcs : cs.count ',' = 0 := by
      simpa [List.count_cons, hc] using h
    simp [splitGo, hc, ih hcs]

theorem splitGo_count_one (cs : List Char) (h : cs.count ',' = 1) :
    (splitGo cs).2 = [afterLastComma cs] := by
  induction cs with
  | nil => simp [List.count_nil] at h
  | cons c cs ih =>
    by_cases hc : c = ','
    · subst hc
      have hcs : cs.count ',' = 0 := by
        simpa [List.count_cons] using h
      have hnm : ',' ∉ cs := List.count_eq_zero.mp hcs
      simp [splitGo, splitGo_count_zero cs hcs, afterLastComma, hnm]
    · have hcs : cs.count ',' = 1 := by
        simpa [List.count_cons, hc] using h
      have hm : ',' ∈ cs := by
        by_contra hnm
        rw [List.count_eq_zero.mpr hnm] at hcs
        exact absurd hcs (by decide)
      simp [splitGo, hc, afterLastComma, hm, ih hcs]

end AumNormalizer

/-- Claim C4 (counterexample): the claim's condition for the comma-decimal
branch (`only commas present, text after the last comma of length at most
3`) holds of `1,234,567`, yet the code strips every comma there (the comma
is not treated as a decimal point), because the code additionally requires
exactly one comma. -/
theorem c4_counterexample :
    "1,234,567".toList.contains ',' = true ∧
    "1,234,567".toList.contains '.' = false ∧
    (AumNormalizer.afterLastComma "1,234,567".toList).length ≤ 3 ∧
    AumNormalizer.cleanSeparators "1,234,567".toList = "1234567".toList ∧
    (AumNormalizer.cleanSeparators "1,234,567".toList).contains '.' = false := by
  decide

/-- Claim C4 (amended): on the cleaned numeric string, if both `,` and `.`
occur, the one occurring later is kept as the decimal separator and the
other is stripped; if only `,` occurs, the comma is replaced by a decimal
point exactly when the string contains a single comma and the text after it
has length at most 3 (not merely when the text after the last comma is
short), and otherwise all commas are stripped as thousands separators. -/
theorem c4_amended (cs : List Char) :
    (cs.contains ',' = true → cs.contains '.' = true →
      AumNormalizer.cleanSeparators cs =
        if AumNormalizer.lastIndexOfChar ',' cs > AumNormalizer.lastIndexOfChar '.' cs then
          AumNormalizer.replaceFirstChar ',' '.' (cs.filter (fun c => !(c = '.')))
        else cs.filter (fun c => !(c = ','))) ∧
    (cs.contains ',' = true → cs.contains '.' = false →
      AumNormalizer.cleanSeparators cs =
        if cs.count ',' = 1 ∧ (AumNormalizer.afterLastComma cs).length ≤ 3 then
          AumNormalizer.replaceFirstChar ',' '.' cs
        else cs.filter (fun c => !(c = ','))) ∧
    (cs.contains ',' = false → AumNormalizer.cleanSeparators cs = cs) := by
  refine ⟨?_, ?_, ?_⟩
  · intro h1 h2
    unfold AumNormalizer.cleanSeparators
    rw [if_pos (show (cs.contains ',' && cs.contains '.') = true by rw [h1, h2]; rfl)]
  · intro h1 h2
    unfold AumNormalizer.cleanSeparators
    rw [if_neg (show ¬ (cs.contains ',' && cs.contains '.') = true by rw [h1, h2]; decide),
      if_pos (show cs.contains ',' = true from h1)]
    by_cases hcount : cs.count ',' = 1
    · have hlen : (AumNormalizer.splitOnComma cs).length = 2 := by
        simp [AumNormalizer.splitOnComma, AumNormalizer.splitGo_count, hcount]
      have hget : (AumNormalizer.splitOnComma cs).getD 1 [] =
          AumNormalizer.afterLastComma cs := by
        simp [AumNormalizer.splitOnComma, AumNormalizer.splitGo_count_one cs hcount]
      rw [hlen, hget]
      by_cases h3 : (AumNormalizer.afterLastComma cs).length ≤ 3
      · rw [if_pos (by simp [h3]), if_pos ⟨hcount, h3⟩]
      · rw [if_neg (by simp [h3]), if_neg (fun hc => h3 hc.2)]
    · have hlen : ¬ (AumNormalizer.splitOnComma cs).length = 2 := by
        simp only [AumNormalizer.splitOnComma, List.length_cons, AumNormalizer.splitGo_count]
        omega
      rw [if_neg (by simp [hlen]), if_neg (fun hc => hcount hc.1)]
  · intro h1
    unfold AumNormalizer.cleanSeparators
    rw [if_neg (show ¬ (cs.contains ',' && cs.contains '.') = true by rw [h1]; simp),
      if_neg (show ¬ cs.contains ',' = true by rw [h1]; decide)]

theorem c4_amended_witness :
    AumNormalizer.cleanSeparators "3,8".toList =
      AumNormalizer.replaceFirstChar ',' '.' "3,8".toList := by
  have h := (c4_amended "3,8".toList).2.1 (by decide) (by decide)
  exact h.trans (if_pos ⟨by decide, by decide⟩)
